import Mathlib

deriving instance DecidableEq for Except

/- Verification development for the audio-journal pipeline.

   The development embeds three parts of the program:
   1. the pure text chunker from src/text_utils.py,
   2. the logical-date resolver from src/date_utils.py,
   3. the processing pipeline from src/telegram_bot.py together with the
      store adapter from src/notion_integration.py, with external
      collaborators (transcription, polishing, store, archive) modelled as
      oracles that either return a value or raise an exception. -/

/-- Python str.isspace restricted to ASCII whitespace characters. This is
the predicate used at the window boundary in chunk_text. -/
def pyIsSpace (c : Char) : Bool :=
  c == ' ' || c == '\t' || c == '\n' || c == '\r' || c.toNat == 11 || c.toNat == 12

/-- Index of the last break character (space, tab or newline) strictly below
the given bound, mirroring the three rfind calls and the max over their
results in chunk_text. Returns none when no break character occurs below the
bound, which corresponds to rfind returning -1 for all three characters. -/
def findLastBreak (t : List Char) : Nat → Option Nat
  | 0 => none
  | b + 1 =>
    if (t.getD b 'a') == ' ' || (t.getD b 'a') == '\t' || (t.getD b 'a') == '\n' then
      some b
    else
      findLastBreak t b

/-- Main loop of chunk_text over the remaining suffix of the text, with
max_chars equal to m + 1. The Python loop indexes into the full string with
a moving start; every operation in the loop body only reads the suffix from
start onward, so the loop is a recursion on that suffix. The first argument
is recursion fuel: every iteration consumes at least one character, so fuel
equal to the length of the suffix always suffices (proved below), and the
wrapper chunkLoop supplies exactly that fuel. With the suffix t and window
size M = m + 1 the body is:
when t is empty the loop exits with no further chunk;
when the suffix fits in the window (end == length in the source) the loop
appends the suffix and breaks;
when the character just past the window is whitespace the chunk is the
window and the next suffix starts one character later (the whitespace is
consumed);
otherwise the last break character strictly inside the window is looked up:
if there is none, or it sits at relative index 0 (last_break <= start in the
source), the chunk is the full window (hard cut); if it sits at relative
index lb + 1 the chunk extends through that break character inclusively. -/
def chunkLoopF (m : Nat) : Nat → List Char → List (List Char)
  | 0, _ => []
  | fuel + 1, t =>
    if t = [] then []
    else if t.length ≤ m + 1 then [t]
    else if pyIsSpace (t.getD (m + 1) 'a') then
      t.take (m + 1) :: chunkLoopF m fuel (t.drop (m + 2))
    else
      match findLastBreak t (m + 1) with
      | none => t.take (m + 1) :: chunkLoopF m fuel (t.drop (m + 1))
      | some 0 => t.take (m + 1) :: chunkLoopF m fuel (t.drop (m + 1))
      | some (lb + 1) => t.take (lb + 2) :: chunkLoopF m fuel (t.drop (lb + 2))

/-- The chunking loop with sufficient fuel. -/
def chunkLoop (m : Nat) (t : List Char) : List (List Char) :=
  chunkLoopF m t.length t

/-- chunk_text from src/text_utils.py. The text is a list of characters and
max_chars is an integer; a non-positive max_chars raises ValueError, which
is modelled as the error branch of Except. For positive max_chars = M the
loop runs with window size M, that is with m = M - 1 in chunkLoop. -/
def chunk_text (text : List Char) (maxChars : Int) : Except String (List (List Char)) :=
  if maxChars ≤ 0 then Except.error "max_chars must be positive"
  else Except.ok (chunkLoop (maxChars.toNat - 1) text)

/-- Kind of cut that produced a chunk: a boundary cut (window edge lands on
whitespace, which is consumed), a hard cut (no usable break inside the
window), a backtrack cut (cut at the last break inside the window, break
character kept inside the chunk), or the final remainder. -/
inductive CutKind where
  | boundary
  | hard
  | backtrack
  | final
deriving DecidableEq

/-- Instrumented copy of chunkLoopF that also records, for every chunk, the
whitespace consumed at the cut (empty except for boundary cuts) and the
kind of cut. Its first projection is proved equal to chunkLoopF. -/
def chunkLoopInstrF (m : Nat) : Nat → List Char → List (List Char × List Char × CutKind)
  | 0, _ => []
  | fuel + 1, t =>
    if t = [] then []
    else if t.length ≤ m + 1 then [(t, [], CutKind.final)]
    else if pyIsSpace (t.getD (m + 1) 'a') then
      (t.take (m + 1), [t.getD (m + 1) 'a'], CutKind.boundary)
        :: chunkLoopInstrF m fuel (t.drop (m + 2))
    else
      match findLastBreak t (m + 1) with
      | none => (t.take (m + 1), [], CutKind.hard) :: chunkLoopInstrF m fuel (t.drop (m + 1))
      | some 0 => (t.take (m + 1), [], CutKind.hard) :: chunkLoopInstrF m fuel (t.drop (m + 1))
      | some (lb + 1) =>
        (t.take (lb + 2), [], CutKind.backtrack) :: chunkLoopInstrF m fuel (t.drop (lb + 2))

/-- Instrumented chunking with sufficient fuel. -/
def chunkInstr (m : Nat) (t : List Char) : List (List Char × List Char × CutKind) :=
  chunkLoopInstrF m t.length t

/-- Rejoining rule claimed by the specification: concatenate the chunks,
re-inserting one single space character at every soft cut point (boundary
and backtrack cuts). This definition follows the words of the spec and is
compared against the source behaviour. -/
def rejoinSingleSpace (l : List (List Char × List Char × CutKind)) : List Char :=
  (l.map (fun p =>
    p.1 ++ (match p.2.2 with
      | CutKind.boundary => [' ']
      | CutKind.backtrack => [' ']
      | _ => []))).flatten

/-- Days algorithm of the proleptic Gregorian calendar mapping a civil date
to the count of days since 1970-01-01. It is used to express the concrete
dates appearing in the specification examples; dates in this development
are day counts since the epoch. All divisors are positive so ediv is floor
division as in Python. -/
def daysFromCivil (y m d : Int) : Int :=
  let yAdj := if m ≤ 2 then y - 1 else y
  let era := yAdj.ediv 400
  let yoe := yAdj - era * 400
  let mp := if 2 < m then m - 3 else m + 9
  let doy := (153 * mp + 2).ediv 5 + d - 1
  let doe := yoe * 365 + yoe.ediv 4 - yoe.ediv 100 + doy
  era * 146097 + doe - 719468

/-- journal_date from src/date_utils.py. Instants are minutes since the
Unix epoch in UTC (the code normalizes naive timestamps to UTC, so every
input is an absolute instant). A timezone is a function giving, for an
instant, the UTC offset in minutes of local wall-clock time at that instant
(a function rather than a constant so that daylight-saving transitions are
covered); the cutoff is a local time of day in minutes. The local datetime
is instant plus offset; its calendar date is floor division by 1440 and its
time of day the remainder, both as in Python for the positive divisor.
When the time of day is strictly before the cutoff the code subtracts one
day (1440 minutes) from the local datetime before taking the date. -/
def journal_date (instantUtc : Int) (tz : Int → Int) (cutoff : Int) : Int :=
  let localDt := instantUtc + tz instantUtc
  if localDt.emod 1440 < cutoff then (localDt - 1440).ediv 1440
  else localDt.ediv 1440

/-- Zone with zero offset. -/
def utcZone : Int → Int := fun _ => 0

/-- Zone offset of a timezone one hour ahead of UTC, as in force in July in
the daylight-saving example of the spec. -/
def plusOneZone : Int → Int := fun _ => 60

/-- Exception value: the Python exception type name together with the text
produced by str on the exception. -/
structure PyErr where
  typeName : String
  msg : String
deriving DecidableEq

/-- ASCII lowering of one character, modelling str.lower. -/
def lowerChar (c : Char) : Char :=
  if 'A' ≤ c ∧ c ≤ 'Z' then Char.ofNat (c.toNat + 32) else c

/-- Lowered character list of a string. -/
def lowerStr (s : String) : List Char := s.toList.map lowerChar

/-- Test whether the second list starts with the first. -/
def leadsWith (p l : List Char) : Bool :=
  match p, l with
  | [], _ => true
  | _ :: _, [] => false
  | a :: p2, b :: l2 => a == b && leadsWith p2 l2

/-- Containment of a character sequence in another, modelling the in
operator on Python strings. -/
def containsSub (needle hay : List Char) : Bool :=
  match hay with
  | [] => leadsWith needle []
  | _ :: rest => leadsWith needle hay || containsSub needle rest

/-- Fixed user message for transcription-service failures (the leading
cross-mark emoji of every user message is omitted throughout). -/
def msgTranscription : String :=
  "Failed to transcribe audio. OpenAI/Whisper service may be temporarily unavailable. Please try again later."

/-- Fixed user message for store failures. -/
def msgNotion : String :=
  "Failed to save to Notion. Please check your Notion integration settings and try again."

/-- Fixed user message for response-format failures. -/
def msgParse : String :=
  "Failed to process transcript. There may be an issue with the AI response format. Please try again."

/-- Fixed user message for audio-file failures. -/
def msgFile : String :=
  "Failed to process audio file. The file may be corrupted or in an unsupported format."

/-- Generic fallback user message, which embeds the exception type name. -/
def msgGeneric (errorType : String) : String :=
  "Processing failed due to an unexpected error (" ++ errorType
    ++ "). Please try again or contact support if the issue persists."

/-- get_error_message from src/telegram_bot.py: the user-visible message is
chosen by substring matching on the lowered exception text, checked in
order. -/
def get_error_message (e : PyErr) : String :=
  let s := lowerStr e.msg
  if containsSub "openai".toList s || containsSub "whisper".toList s then msgTranscription
  else if containsSub "notion".toList s then msgNotion
  else if containsSub "json".toList s || containsSub "parse".toList s then msgParse
  else if containsSub "file".toList s || containsSub "path".toList s then msgFile
  else msgGeneric e.typeName

/-- Child block of a store page: a paragraph or a level-2 heading. -/
inductive Block where
  | paragraph (text : List Char)
  | heading (text : List Char)
deriving DecidableEq

/-- Store-side operations. The code never issues a delete of a page; the
deletePage constructor exists so that the absence of a rollback is a
statement about the operation trace rather than about an empty type. -/
inductive Op where
  | create (title : String) (jdate : Int) (structured : List Char) (raw : Option (List Char))
  | append (pageId : String) (children : List Block)
  | deletePage (pageId : String)
deriving DecidableEq

/-- Shape of the parsed polishing response: the values at the keys polished
and summary when present. -/
structure PolishedData where
  polished : Option (List Char)
  summary : Option String
deriving DecidableEq

/-- Oracles for one pipeline run: the outcome of each collaborator call.
The append oracle is indexed by the position of the append call in the run.
audioExists states whether the audio file is present when the finally
block runs, and removeOk whether its removal succeeds. -/
structure Collab where
  transcribeRes : Except PyErr (List Char)
  polishRes : Except PyErr PolishedData
  createRes : Except PyErr (String × String)
  appendRes : Nat → Option PyErr
  archiveRes : Option PyErr
  audioExists : Bool
  removeOk : Bool

/-- Field-size ceiling used for chunking, from src/notion_integration.py. -/
def MAX_CHARS : Int := 1800

/-- Batch size for appending children blocks, from src/notion_integration.py
(the documented store limit is 100 per request). -/
def CHILD_BATCH_SIZE : Nat := 50

/-- Chunking of a text at the MAX_CHARS ceiling, that is chunkLoop with
window size 1800. The bridge to chunk_text is proved below. -/
def chunkMax (t : List Char) : List (List Char) := chunkLoop 1799 t

/-- The chunk list used for the structured text, with the falsy-list
coercion from create_entry_from_memory: chunk_text(...) or a singleton
list holding the empty string. -/
def structuredChunksOf (structuredFull : List Char) : List (List Char) :=
  if chunkMax structuredFull = [] then [[]] else chunkMax structuredFull

/-- Batching loop for i in range(0, len(children), k) yielding the slices
children[i : i + k]. The first argument is k - 1 and the second recursion
fuel; the code only ever uses the positive batch size CHILD_BATCH_SIZE and
fuel equal to the list length always suffices since every step drops at
least one element. -/
def batchesF {α : Type} (kk : Nat) : Nat → List α → List (List α)
  | 0, _ => []
  | _ + 1, [] => []
  | fuel + 1, a :: l2 => ((a :: l2).take (kk + 1)) :: batchesF kk fuel ((a :: l2).drop (kk + 1))

/-- Batches of size k of a list, in order. -/
def batches {α : Type} (l : List α) (k : Nat) : List (List α) :=
  batchesF (k - 1) l.length l

/-- Exception raised by a missing polished key in the parsed response. -/
def keyErrorPolished : PyErr := ⟨"KeyError", "'polished'"⟩

/-- Exception raised by indexing an empty list. -/
def indexError : PyErr := ⟨"IndexError", "list index out of range"⟩

/-- Title extraction polished_data.get with the key summary and the falsy
fallback: a missing key and an empty string both yield Untitled. -/
def titleOf (pd : PolishedData) : String :=
  match pd.summary with
  | none => "Untitled"
  | some s => if s = "" then "Untitled" else s

/-- Loop pushing child batches through the append endpoint of the store;
the oracle gives the outcome of the k-th append call of the run, counting
all append calls of the run in order; a raised error aborts the loop.
Returns the loop outcome, the operations that succeeded, and the next call
index. -/
def appendLoop (oracle : Nat → Option PyErr) (pid : String) :
    Nat → List (List Block) → Except PyErr Unit × List Op × Nat
  | k, [] => (Except.ok (), [], k)
  | k, b :: bs =>
    match oracle k with
    | some e => (Except.error e, [], k + 1)
    | none =>
      let r := appendLoop oracle pid (k + 1) bs
      (r.1, Op.append pid b :: r.2.1, r.2.2)

/-- First chunk of the raw transcript when a raw transcript is present:
the expression indexing chunk_text(raw_transcript, MAX_CHARS) at zero in
create_entry_from_memory, with the IndexError an empty chunk list would
raise. -/
def rawFirstChunkOf (rawTranscript : List Char) : Except PyErr (Option (List Char)) :=
  if rawTranscript = [] then Except.ok none
  else
    match chunkMax rawTranscript with
    | [] => Except.error indexError
    | h :: _ => Except.ok (some h)

/-- Continuation section for a raw transcript spanning several chunks: the
heading block followed by the remaining raw chunks as paragraph blocks, or
nothing when the raw transcript is absent or fits in one chunk. -/
def rawContinuation (rawTranscript : List Char) : List Block :=
  if rawTranscript ≠ [] ∧ 1 < (chunkMax rawTranscript).length then
    Block.heading "Raw Transcript (continued)".toList
      :: ((chunkMax rawTranscript).drop 1).map Block.paragraph
  else []

/-- create_entry_from_memory from src/notion_integration.py, over the store
and archive oracles, together with the page creation and child batching of
_create_page_with_chunks. Returns the Python return value (page url and
local entry directory) or the raised exception, and the list of store
operations that succeeded, in order. A failed store call has no recorded
store-side effect. Artifact writing is reduced to its success or failure
and the entry directory name composition is not modelled. -/
def create_entry_from_memory (c : Collab) (rawTranscript : List Char)
    (pd : PolishedData) (instant : Int) (tz : Int → Int) (cutoff : Int) :
    Except PyErr (String × String) × List Op :=
  let title := titleOf pd
  match pd.polished with
  | none => (Except.error keyErrorPolished, [])
  | some structuredFull =>
    let structuredChunks := structuredChunksOf structuredFull
    let logicalDate := journal_date instant tz cutoff
    match rawFirstChunkOf rawTranscript with
    | Except.error e => (Except.error e, [])
    | Except.ok rawFirst =>
      match structuredChunks with
      | [] => (Except.error indexError, [])
      | firstChunk :: restChunks =>
        match c.createRes with
        | Except.error e => (Except.error e, [])
        | Except.ok (pageId, pageUrl) =>
          let createOp := Op.create title logicalDate firstChunk rawFirst
          let batched1 := batches (restChunks.map Block.paragraph) CHILD_BATCH_SIZE
          let r1 := appendLoop c.appendRes pageId 0 batched1
          match r1.1 with
          | Except.error e => (Except.error e, createOp :: r1.2.1)
          | Except.ok _ =>
            let r2 := appendLoop c.appendRes pageId r1.2.2
              (batches (rawContinuation rawTranscript) CHILD_BATCH_SIZE)
            match r2.1 with
            | Except.error e => (Except.error e, createOp :: (r1.2.1 ++ r2.2.1))
            | Except.ok _ =>
              match c.archiveRes with
              | some e => (Except.error e, createOp :: (r1.2.1 ++ r2.2.1))
              | none => (Except.ok (pageUrl, "journal_entries"), createOp :: (r1.2.1 ++ r2.2.1))

/-- Terminal outcome of a run as reported to the user. -/
inductive Outcome where
  | success (url : String)
  | failure (msg : String)
deriving DecidableEq

/-- Result of one run: the outcome, the store operations that succeeded in
order, the number of audio-removal calls made, and whether a removal
failure was logged. -/
structure RunResult where
  outcome : Outcome
  ops : List Op
  removeCalls : Nat
  removeWarned : Bool
deriving DecidableEq

/-- pipeline_blocking from src/telegram_bot.py: transcription, polishing,
then create_entry_from_memory, with the finally block always running once
on the way out: the audio file is removed when it exists, and a removal
failure is caught and logged without changing the result. -/
def pipeline_blocking (c : Collab) (instant : Int) (tz : Int → Int) (cutoff : Int) :
    Except PyErr String × List Op × Nat × Bool :=
  let body : Except PyErr String × List Op :=
    match c.transcribeRes with
    | Except.error e => (Except.error e, [])
    | Except.ok rawTranscript =>
      match c.polishRes with
      | Except.error e => (Except.error e, [])
      | Except.ok pd =>
        let r := create_entry_from_memory c rawTranscript pd instant tz cutoff
        match r.1 with
        | Except.error e => (Except.error e, r.2)
        | Except.ok ru => (Except.ok ru.1, r.2)
  let removeCalls := if c.audioExists then 1 else 0
  let removeWarned := c.audioExists && !c.removeOk
  (body.1, body.2, removeCalls, removeWarned)

/-- run_pipeline from src/telegram_bot.py: runs the blocking pipeline and
turns its result into what is sent to the user, a success notice carrying
the page url, or the message chosen by get_error_message. -/
def run_pipeline (c : Collab) (instant : Int) (tz : Int → Int) (cutoff : Int) : RunResult :=
  let r := pipeline_blocking c instant tz cutoff
  match r.1 with
  | Except.ok url => ⟨Outcome.success url, r.2.1, r.2.2.1, r.2.2.2⟩
  | Except.error e => ⟨Outcome.failure (get_error_message e), r.2.1, r.2.2.1, r.2.2.2⟩

/-- Marker: the lowered exception text names the transcription backend. -/
def mentionsTranscription (e : PyErr) : Bool :=
  containsSub "openai".toList (lowerStr e.msg) || containsSub "whisper".toList (lowerStr e.msg)

/-- Marker: the lowered exception text names the store. -/
def mentionsStore (e : PyErr) : Bool :=
  containsSub "notion".toList (lowerStr e.msg)

/-- Marker: the lowered exception text names a response-format problem. -/
def mentionsParse (e : PyErr) : Bool :=
  containsSub "json".toList (lowerStr e.msg) || containsSub "parse".toList (lowerStr e.msg)

/-- Marker: the lowered exception text names the filesystem. -/
def mentionsFileSystem (e : PyErr) : Bool :=
  containsSub "file".toList (lowerStr e.msg) || containsSub "path".toList (lowerStr e.msg)

/-- Test for a create operation. -/
def Op.isCreate : Op → Bool
  | Op.create _ _ _ _ => true
  | _ => false

/-- Test for a delete operation. -/
def Op.isDelete : Op → Bool
  | Op.deletePage _ => true
  | _ => false

/-- All blocks sent through append operations, in request order. -/
def appendedBlocks (ops : List Op) : List Block :=
  (ops.map (fun op =>
    match op with
    | Op.append _ ch => ch
    | _ => [])).flatten

/-- A structured text of 3598 characters that chunks into two chunks at the
1800-character ceiling: 1799 letters, one space, then 1798 letters. -/
def longText : List Char := List.replicate 1799 'a' ++ ' ' :: List.replicate 1798 'b'

/-- Run in which every collaborator succeeds and the polishing response has
no summary key. -/
def cNoSummary : Collab :=
  ⟨Except.ok "hello there".toList,
   Except.ok ⟨some "hello there".toList, none⟩,
   Except.ok ("pid", "url"), fun _ => none, none, true, true⟩

/-- Run in which transcription raises an error whose text matches none of
the message markers. -/
def cTransFail : Collab :=
  ⟨Except.error ⟨"RuntimeError", "network timeout"⟩,
   Except.ok ⟨some "hello there".toList, some "Topic"⟩,
   Except.ok ("pid", "url"), fun _ => none, none, true, true⟩

/-- Run in which the page is created and the following append raises an
error whose text matches none of the message markers. -/
def cAppendTimeout : Collab :=
  ⟨Except.ok "hello there".toList,
   Except.ok ⟨some longText, some "Topic"⟩,
   Except.ok ("pid", "url"),
   fun k => if k = 0 then some ⟨"RuntimeError", "timeout"⟩ else none,
   none, true, true⟩

/-- Run in which transcription raises an error naming its backend. -/
def cTransFailMarked : Collab :=
  ⟨Except.error ⟨"APIError", "OpenAI rate limit"⟩,
   Except.ok ⟨some "hello there".toList, some "Topic"⟩,
   Except.ok ("pid", "url"), fun _ => none, none, true, true⟩

/-- Run in which polishing raises a response-format error. -/
def cPolishFailMarked : Collab :=
  ⟨Except.ok "hello there".toList,
   Except.error ⟨"JSONDecodeError", "invalid json response"⟩,
   Except.ok ("pid", "url"), fun _ => none, none, true, true⟩

/-- Run in which the page creation raises an error naming the store. -/
def cCreateFailMarked : Collab :=
  ⟨Except.ok "hello there".toList,
   Except.ok ⟨some "hello there".toList, some "Topic"⟩,
   Except.error ⟨"APIResponseError", "Notion request failed"⟩,
   fun _ => none, none, true, true⟩

/-- Run in which the first append raises an error naming the store. -/
def cAppendFailMarked : Collab :=
  ⟨Except.ok "hello there".toList,
   Except.ok ⟨some longText, some "Topic"⟩,
   Except.ok ("pid", "url"),
   fun k => if k = 0 then some ⟨"APIResponseError", "Notion request failed"⟩ else none,
   none, true, true⟩

/-- Run in which the local archive step raises a filesystem error. -/
def cArchiveFailMarked : Collab :=
  ⟨Except.ok "hello there".toList,
   Except.ok ⟨some "hello there".toList, some "Topic"⟩,
   Except.ok ("pid", "url"), fun _ => none,
   some ⟨"OSError", "cannot write file"⟩, true, true⟩

/-- Run in which the polishing response lacks the polished key. -/
def cNoPolishedKey : Collab :=
  ⟨Except.ok "hello there".toList,
   Except.ok ⟨none, some "Topic"⟩,
   Except.ok ("pid", "url"), fun _ => none, none, true, true⟩

/-- Run in which the polished text is the empty string. -/
def cEmptyPolished : Collab :=
  ⟨Except.ok "hello there".toList,
   Except.ok ⟨some [], some "Topic"⟩,
   Except.ok ("pid", "url"), fun _ => none, none, true, true⟩

/-- Run in which every collaborator succeeds and both the polished text and
the raw transcript span two chunks. -/
def cAllOkLong : Collab :=
  ⟨Except.ok longText,
   Except.ok ⟨some longText, some "Topic"⟩,
   Except.ok ("pid", "url"), fun _ => none, none, true, true⟩

theorem findLastBreak_lt {t : List Char} : ∀ {b i : Nat}, findLastBreak t b = some i → i < b := by
  intro b
  induction b with
  | zero => intro i h; simp [findLastBreak] at h
  | succ b ih =>
    intro i h
    rw [findLastBreak] at h
    split at h
    · simp only [Option.some.injEq] at h
      omega
    · exact Nat.lt_succ_of_lt (ih h)

theorem take_getD_drop (t : List Char) (k : Nat) (h : k < t.length) :
    t.take k ++ t.getD k 'a' :: t.drop (k + 1) = t := by
  rw [List.getD_eq_getElem t 'a' h, ← List.drop_eq_getElem_cons h, List.take_append_drop]

theorem chunkLoopInstrF_fst (m : Nat) :
    ∀ (fuel : Nat) (t : List Char),
      (chunkLoopInstrF m fuel t).map (fun p => p.1) = chunkLoopF m fuel t := by
  intro fuel
  induction fuel with
  | zero => intro t; rfl
  | succ fuel ih =>
    intro t
    rw [chunkLoopInstrF, chunkLoopF]
    by_cases h0 : t = []
    · rw [if_pos h0, if_pos h0]
      rfl
    rw [if_neg h0, if_neg h0]
    by_cases h1 : t.length ≤ m + 1
    · rw [if_pos h1, if_pos h1]
      rfl
    rw [if_neg h1, if_neg h1]
    by_cases h2 : pyIsSpace (t.getD (m + 1) 'a')
    · rw [if_pos h2, if_pos h2]
      simp only [List.map_cons, ih]
    rw [if_neg h2, if_neg h2]
    split <;> simp only [List.map_cons, ih]

theorem chunkLoopInstrF_join (m : Nat) :
    ∀ (fuel : Nat) (t : List Char), t.length ≤ fuel →
      ((chunkLoopInstrF m fuel t).map (fun p => p.1 ++ p.2.1)).flatten = t := by
  intro fuel
  induction fuel with
  | zero =>
    intro t ht
    have ht0 : t = [] := List.eq_nil_of_length_eq_zero (Nat.le_zero.mp ht)
    subst ht0
    rfl
  | succ fuel ih =>
    intro t ht
    rw [chunkLoopInstrF]
    by_cases h0 : t = []
    · rw [if_pos h0]
      simp [h0]
    rw [if_neg h0]
    by_cases h1 : t.length ≤ m + 1
    · rw [if_pos h1]
      simp
    rw [if_neg h1]
    by_cases h2 : pyIsSpace (t.getD (m + 1) 'a')
    · rw [if_pos h2]
      simp only [List.map_cons, List.flatten_cons]
      rw [ih (t.drop (m + 2)) (by simp only [List.length_drop]; omega)]
      rw [List.append_assoc, List.singleton_append,
        take_getD_drop t (m + 1) (by omega)]
    rw [if_neg h2]
    split
    · simp only [List.map_cons, List.flatten_cons]
      rw [ih (t.drop (m + 1)) (by simp only [List.length_drop]; omega)]
      simp [List.take_append_drop]
    · simp only [List.map_cons, List.flatten_cons]
      rw [ih (t.drop (m + 1)) (by simp only [List.length_drop]; omega)]
      simp [List.take_append_drop]
    · rename_i lb heq
      simp only [List.map_cons, List.flatten_cons]
      rw [ih (t.drop (lb + 2)) (by simp only [List.length_drop]; omega)]
      simp [List.take_append_drop]

theorem chunkLoopInstrF_sep (m : Nat) :
    ∀ (fuel : Nat) (t : List Char) (p : List Char × List Char × CutKind),
      p ∈ chunkLoopInstrF m fuel t →
      p.2.1 = [] ∨ ∃ c, p.2.1 = [c] ∧ pyIsSpace c = true := by
  intro fuel
  induction fuel with
  | zero => intro t p hp; simp [chunkLoopInstrF] at hp
  | succ fuel ih =>
    intro t p hp
    rw [chunkLoopInstrF] at hp
    by_cases h0 : t = []
    · rw [if_pos h0] at hp
      simp at hp
    rw [if_neg h0] at hp
    by_cases h1 : t.length ≤ m + 1
    · rw [if_pos h1] at hp
      simp at hp
      subst hp
      left
      rfl
    rw [if_neg h1] at hp
    by_cases h2 : pyIsSpace (t.getD (m + 1) 'a')
    · rw [if_pos h2] at hp
      rcases List.mem_cons.mp hp with h | h
      · subst h
        right
        exact ⟨t.getD (m + 1) 'a', rfl, h2⟩
      · exact ih _ p h
    rw [if_neg h2] at hp
    split at hp <;>
      rcases List.mem_cons.mp hp with h | h <;>
      first
        | (subst h; left; rfl)
        | exact ih _ p h

theorem chunkLoopInstrF_chunklen (m : Nat) :
    ∀ (fuel : Nat) (t : List Char) (p : List Char × List Char × CutKind),
      p ∈ chunkLoopInstrF m fuel t → p.1.length ≤ m + 1 := by
  intro fuel
  induction fuel with
  | zero => intro t p hp; simp [chunkLoopInstrF] at hp
  | succ fuel ih =>
    intro t p hp
    rw [chunkLoopInstrF] at hp
    by_cases h0 : t = []
    · rw [if_pos h0] at hp
      simp at hp
    rw [if_neg h0] at hp
    by_cases h1 : t.length ≤ m + 1
    · rw [if_pos h1] at hp
      simp at hp
      subst hp
      exact h1
    rw [if_neg h1] at hp
    by_cases h2 : pyIsSpace (t.getD (m + 1) 'a')
    · rw [if_pos h2] at hp
      rcases List.mem_cons.mp hp with h | h
      · subst h
        simp [List.length_take]
      · exact ih _ p h
    rw [if_neg h2] at hp
    split at hp
    · rcases List.mem_cons.mp hp with h | h
      · subst h
        simp [List.length_take]
      · exact ih _ p h
    · rcases List.mem_cons.mp hp with h | h
      · subst h
        simp [List.length_take]
      · exact ih _ p h
    · rename_i lb heq
      rcases List.mem_cons.mp hp with h | h
      · subst h
        have := findLastBreak_lt heq
        simp only [List.length_take]
        omega
      · exact ih _ p h

theorem chunkLoopInstrF_hardlen (m : Nat) :
    ∀ (fuel : Nat) (t : List Char) (p : List Char × List Char × CutKind),
      p ∈ chunkLoopInstrF m fuel t → p.2.2 = CutKind.hard → p.1.length = m + 1 := by
  intro fuel
  induction fuel with
  | zero => intro t p hp; simp [chunkLoopInstrF] at hp
  | succ fuel ih =>
    intro t p hp hk
    rw [chunkLoopInstrF] at hp
    by_cases h0 : t = []
    · rw [if_pos h0] at hp
      simp at hp
    rw [if_neg h0] at hp
    by_cases h1 : t.length ≤ m + 1
    · rw [if_pos h1] at hp
      simp at hp
      subst hp
      simp at hk
    rw [if_neg h1] at hp
    by_cases h2 : pyIsSpace (t.getD (m + 1) 'a')
    · rw [if_pos h2] at hp
      rcases List.mem_cons.mp hp with h | h
      · subst h
        simp at hk
      · exact ih _ p h hk
    rw [if_neg h2] at hp
    split at hp
    · rcases List.mem_cons.mp hp with h | h
      · subst h
        simp only [List.length_take]
        omega
      · exact ih _ p h hk
    · rcases List.mem_cons.mp hp with h | h
      · subst h
        simp only [List.length_take]
        omega
      · exact ih _ p h hk
    · rcases List.mem_cons.mp hp with h | h
      · subst h
        simp at hk
      · exact ih _ p h hk

theorem chunkLoopF_ne_nil (m : Nat) :
    ∀ (fuel : Nat) (t : List Char) (ch : List Char),
      ch ∈ chunkLoopF m fuel t → ch ≠ [] := by
  intro fuel
  induction fuel with
  | zero => intro t ch hch; simp [chunkLoopF] at hch
  | succ fuel ih =>
    intro t ch hch
    rw [chunkLoopF] at hch
    by_cases h0 : t = []
    · rw [if_pos h0] at hch
      simp at hch
    rw [if_neg h0] at hch
    by_cases h1 : t.length ≤ m + 1
    · rw [if_pos h1] at hch
      simp at hch
      subst hch
      exact h0
    rw [if_neg h1] at hch
    have hlen : m + 1 < t.length := by omega
    by_cases h2 : pyIsSpace (t.getD (m + 1) 'a')
    · rw [if_pos h2] at hch
      rcases List.mem_cons.mp hch with h | h
      · subst h
        intro hc
        have := congrArg List.length hc
        simp only [List.length_take, List.length_nil] at this
        omega
      · exact ih _ ch h
    rw [if_neg h2] at hch
    split at hch
    · rcases List.mem_cons.mp hch with h | h
      · subst h
        intro hc
        have := congrArg List.length hc
        simp only [List.length_take, List.length_nil] at this
        omega
      · exact ih _ ch h
    · rcases List.mem_cons.mp hch with h | h
      · subst h
        intro hc
        have := congrArg List.length hc
        simp only [List.length_take, List.length_nil] at this
        omega
      · exact ih _ ch h
    · rcases List.mem_cons.mp hch with h | h
      · subst h
        intro hc
        have := congrArg List.length hc
        simp only [List.length_take, List.length_nil] at this
        omega
      · exact ih _ ch h

theorem chunkLoopF_cons (m : Nat) (fuel : Nat) (t : List Char)
    (h : t ≠ []) : chunkLoopF m (fuel + 1) t ≠ [] := by
  rw [chunkLoopF]
  rw [if_neg h]
  by_cases h1 : t.length ≤ m + 1
  · rw [if_pos h1]
    simp
  rw [if_neg h1]
  by_cases h2 : pyIsSpace (t.getD (m + 1) 'a')
  · rw [if_pos h2]
    simp
  rw [if_neg h2]
  split <;> simp

/-- The loop with full fuel returns a nonempty chunk list on nonempty input. -/
theorem chunkLoop_ne_nil (m : Nat) (t : List Char) (h : t ≠ []) :
    chunkLoop m t ≠ [] := by
  have hl : t.length ≠ 0 := fun hc => h (List.eq_nil_of_length_eq_zero hc)
  rcases hn : t.length with _ | n
  · exact absurd hn hl
  · rw [chunkLoop, hn]
    exact chunkLoopF_cons m n t h

/-- For positive max_chars the wrapper returns the loop result. -/
theorem chunk_text_pos (t : List Char) (maxChars : Int) (h : 0 < maxChars) :
    chunk_text t maxChars = Except.ok (chunkLoop (maxChars.toNat - 1) t) := by
  rw [chunk_text, if_neg (by omega)]

theorem batchesF_flatten {α : Type} (kk : Nat) :
    ∀ (fuel : Nat) (l : List α), l.length ≤ fuel → (batchesF kk fuel l).flatten = l := by
  intro fuel
  induction fuel with
  | zero =>
    intro l hl
    have h0 : l = [] := List.eq_nil_of_length_eq_zero (Nat.le_zero.mp hl)
    subst h0
    rfl
  | succ fuel ih =>
    intro l hl
    cases l with
    | nil => rfl
    | cons a l2 =>
      rw [batchesF]
      simp only [List.flatten_cons]
      rw [ih ((a :: l2).drop (kk + 1))
        (by simp only [List.length_drop, List.length_cons]; simp at hl; omega)]
      exact List.take_append_drop _ _

theorem batchesF_size {α : Type} (kk : Nat) :
    ∀ (fuel : Nat) (l : List α) (b : List α), b ∈ batchesF kk fuel l → b.length ≤ kk + 1 := by
  intro fuel
  induction fuel with
  | zero => intro l b hb; simp [batchesF] at hb
  | succ fuel ih =>
    intro l b hb
    cases l with
    | nil => simp [batchesF] at hb
    | cons a l2 =>
      rw [batchesF] at hb
      rcases List.mem_cons.mp hb with h | h
      · subst h
        simp [List.length_take]
      · exact ih _ b h

theorem batches_flatten {α : Type} (l : List α) (k : Nat) : (batches l k).flatten = l :=
  batchesF_flatten (k - 1) l.length l le_rfl

theorem batches_size {α : Type} (l : List α) (k : Nat) (b : List α)
    (hk : k ≠ 0) (hb : b ∈ batches l k) : b.length ≤ k := by
  have h := batchesF_size (k - 1) l.length l b hb
  omega

theorem batches_ne_nil {α : Type} (l : List α) (k : Nat) (h : l ≠ []) :
    batches l k ≠ [] := by
  cases l with
  | nil => exact absurd rfl h
  | cons a l2 =>
    rw [batches]
    simp only [List.length_cons]
    rw [batchesF]
    simp

theorem appendLoop_all_ok (oracle : Nat → Option PyErr) (pid : String)
    (hall : ∀ j, oracle j = none) :
    ∀ (bs : List (List Block)) (k : Nat),
      appendLoop oracle pid k bs
        = (Except.ok (), bs.map (fun b => Op.append pid b), k + bs.length) := by
  intro bs
  induction bs with
  | nil => intro k; simp [appendLoop]
  | cons b bs ih =>
    intro k
    rw [appendLoop, hall k, ih (k + 1)]
    simp
    omega

theorem appendLoop_first_err (oracle : Nat → Option PyErr) (pid : String)
    (k : Nat) (e : PyErr) (b : List Block) (bs : List (List Block))
    (h : oracle k = some e) :
    appendLoop oracle pid k (b :: bs) = (Except.error e, [], k + 1) := by
  rw [appendLoop, h]

theorem appendLoop_ops_append (oracle : Nat → Option PyErr) (pid : String) :
    ∀ (bs : List (List Block)) (k : Nat) (op : Op),
      op ∈ (appendLoop oracle pid k bs).2.1 → ∃ ch, op = Op.append pid ch := by
  intro bs
  induction bs with
  | nil => intro k op hop; simp [appendLoop] at hop
  | cons b bs ih =>
    intro k op hop
    rw [appendLoop] at hop
    rcases ho : oracle k with _ | e
    · rw [ho] at hop
      rcases List.mem_cons.mp hop with h | h
      · exact ⟨b, h⟩
      · exact ih (k + 1) op h
    · rw [ho] at hop
      simp at hop

theorem gem_transcription (e : PyErr) (h : mentionsTranscription e = true) :
    get_error_message e = msgTranscription := by
  unfold mentionsTranscription at h
  simp only [get_error_message]
  rw [if_pos h]

theorem gem_notion (e : PyErr) (h1 : mentionsTranscription e = false)
    (h2 : mentionsStore e = true) : get_error_message e = msgNotion := by
  unfold mentionsTranscription at h1
  unfold mentionsStore at h2
  simp only [get_error_message]
  rw [if_neg (by rw [h1]; simp), if_pos h2]

theorem gem_parse (e : PyErr) (h1 : mentionsTranscription e = false)
    (h2 : mentionsStore e = false) (h3 : mentionsParse e = true) :
    get_error_message e = msgParse := by
  unfold mentionsTranscription at h1
  unfold mentionsStore at h2
  unfold mentionsParse at h3
  simp only [get_error_message]
  rw [if_neg (by rw [h1]; simp), if_neg (by rw [h2]; simp), if_pos h3]

theorem gem_file (e : PyErr) (h1 : mentionsTranscription e = false)
    (h2 : mentionsStore e = false) (h3 : mentionsParse e = false)
    (h4 : mentionsFileSystem e = true) : get_error_message e = msgFile := by
  unfold mentionsTranscription at h1
  unfold mentionsStore at h2
  unfold mentionsParse at h3
  unfold mentionsFileSystem at h4
  simp only [get_error_message]
  rw [if_neg (by rw [h1]; simp), if_neg (by rw [h2]; simp), if_neg (by rw [h3]; simp), if_pos h4]

theorem run_pipeline_outcome_err (c : Collab) (i : Int) (tz : Int → Int) (co : Int)
    (e : PyErr) (h : (pipeline_blocking c i tz co).1 = Except.error e) :
    (run_pipeline c i tz co).outcome = Outcome.failure (get_error_message e) := by
  simp [run_pipeline, h]

theorem run_pipeline_outcome_ok (c : Collab) (i : Int) (tz : Int → Int) (co : Int)
    (url : String) (h : (pipeline_blocking c i tz co).1 = Except.ok url) :
    (run_pipeline c i tz co).outcome = Outcome.success url := by
  simp [run_pipeline, h]

theorem run_pipeline_ops_eq (c : Collab) (i : Int) (tz : Int → Int) (co : Int) :
    (run_pipeline c i tz co).ops = (pipeline_blocking c i tz co).2.1 := by
  rcases hE : (pipeline_blocking c i tz co).1 with e | url <;> simp [run_pipeline, hE]

theorem run_pipeline_removeCalls (c : Collab) (i : Int) (tz : Int → Int) (co : Int) :
    (run_pipeline c i tz co).removeCalls = (if c.audioExists then 1 else 0) := by
  rcases hE : (pipeline_blocking c i tz co).1 with e | url <;> simp [run_pipeline, hE] <;> rfl

theorem pipeline_trans_err (c : Collab) (i : Int) (tz : Int → Int) (co : Int)
    (e : PyErr) (h : c.transcribeRes = Except.error e) :
    (pipeline_blocking c i tz co).1 = Except.error e ∧
    (pipeline_blocking c i tz co).2.1 = [] := by
  constructor <;> simp [pipeline_blocking, h]

theorem pipeline_polish_err (c : Collab) (i : Int) (tz : Int → Int) (co : Int)
    (raw : List Char) (e : PyErr) (ht : c.transcribeRes = Except.ok raw)
    (h : c.polishRes = Except.error e) :
    (pipeline_blocking c i tz co).1 = Except.error e ∧
    (pipeline_blocking c i tz co).2.1 = [] := by
  constructor <;> simp [pipeline_blocking, ht, h]

theorem pipeline_entry_err (c : Collab) (i : Int) (tz : Int → Int) (co : Int)
    (raw : List Char) (pd : PolishedData) (e : PyErr)
    (ht : c.transcribeRes = Except.ok raw) (hp : c.polishRes = Except.ok pd)
    (he : (create_entry_from_memory c raw pd i tz co).1 = Except.error e) :
    (pipeline_blocking c i tz co).1 = Except.error e ∧
    (pipeline_blocking c i tz co).2.1 = (create_entry_from_memory c raw pd i tz co).2 := by
  constructor <;> simp [pipeline_blocking, ht, hp, he]

theorem pipeline_entry_ok (c : Collab) (i : Int) (tz : Int → Int) (co : Int)
    (raw : List Char) (pd : PolishedData) (url dir : String)
    (ht : c.transcribeRes = Except.ok raw) (hp : c.polishRes = Except.ok pd)
    (he : (create_entry_from_memory c raw pd i tz co).1 = Except.ok (url, dir)) :
    (pipeline_blocking c i tz co).1 = Except.ok url ∧
    (pipeline_blocking c i tz co).2.1 = (create_entry_from_memory c raw pd i tz co).2 := by
  constructor <;> simp [pipeline_blocking, ht, hp, he]

theorem chunkMax_ne_nil (t : List Char) (h : t ≠ []) : chunkMax t ≠ [] :=
  chunkLoop_ne_nil 1799 t h

theorem structuredChunksOf_ne_nil (sf : List Char) : structuredChunksOf sf ≠ [] := by
  unfold structuredChunksOf
  split
  · simp
  · rename_i h
    exact h

theorem rawFirst_ok (raw : List Char) : ∃ rf, rawFirstChunkOf raw = Except.ok rf := by
  unfold rawFirstChunkOf
  by_cases h : raw = []
  · exact ⟨none, by rw [if_pos h]⟩
  · rw [if_neg h]
    rcases hc : chunkMax raw with _ | ⟨a, l⟩
    · exact absurd hc (chunkMax_ne_nil raw h)
    · exact ⟨some a, rfl⟩

theorem entry_no_polished (c : Collab) (raw : List Char) (pd : PolishedData)
    (i : Int) (tz : Int → Int) (co : Int) (h : pd.polished = none) :
    create_entry_from_memory c raw pd i tz co = (Except.error keyErrorPolished, []) := by
  simp [create_entry_from_memory, h]

theorem entry_create_err (c : Collab) (raw : List Char) (pd : PolishedData)
    (i : Int) (tz : Int → Int) (co : Int) (sf : List Char) (e : PyErr)
    (hpol : pd.polished = some sf) (hc : c.createRes = Except.error e) :
    create_entry_from_memory c raw pd i tz co = (Except.error e, []) := by
  obtain ⟨rf, hrf⟩ := rawFirst_ok raw
  rcases hsc : structuredChunksOf sf with _ | ⟨f, rest⟩
  · exact absurd hsc (structuredChunksOf_ne_nil sf)
  · simp [create_entry_from_memory, hpol, hrf, hsc, hc]

theorem entry_append_err (c : Collab) (raw : List Char) (pd : PolishedData)
    (i : Int) (tz : Int → Int) (co : Int) (sf f : List Char)
    (rest : List (List Char)) (e : PyErr) (pid url : String)
    (hpol : pd.polished = some sf) (hsc : structuredChunksOf sf = f :: rest)
    (hrest : rest ≠ []) (hc : c.createRes = Except.ok (pid, url))
    (ha : c.appendRes 0 = some e) :
    ∃ rf, rawFirstChunkOf raw = Except.ok rf ∧
      create_entry_from_memory c raw pd i tz co =
        (Except.error e, [Op.create (titleOf pd) (journal_date i tz co) f rf]) := by
  obtain ⟨rf, hrf⟩ := rawFirst_ok raw
  refine ⟨rf, hrf, ?_⟩
  rcases hB : batches (rest.map (fun ch => Block.paragraph ch)) CHILD_BATCH_SIZE
      with _ | ⟨b, bs⟩
  · exact absurd hB (batches_ne_nil _ _ (by simp [hrest]))
  · simp [create_entry_from_memory, hpol, hrf, hsc, hc, hB,
      appendLoop_first_err c.appendRes pid 0 e b bs ha]

theorem entry_ok_success (c : Collab) (raw : List Char) (pd : PolishedData)
    (i : Int) (tz : Int → Int) (co : Int) (sf f : List Char)
    (rest : List (List Char)) (pid url : String) (rf : Option (List Char))
    (hpol : pd.polished = some sf) (hrf : rawFirstChunkOf raw = Except.ok rf)
    (hsc : structuredChunksOf sf = f :: rest)
    (hc : c.createRes = Except.ok (pid, url))
    (hall : ∀ j, c.appendRes j = none) (harch : c.archiveRes = none) :
    create_entry_from_memory c raw pd i tz co =
      (Except.ok (url, "journal_entries"),
       Op.create (titleOf pd) (journal_date i tz co) f rf
         :: ((batches (rest.map (fun ch => Block.paragraph ch)) CHILD_BATCH_SIZE).map
              (fun b => Op.append pid b)
           ++ (batches (rawContinuation raw) CHILD_BATCH_SIZE).map
              (fun b => Op.append pid b))) := by
  simp [create_entry_from_memory, hpol, hrf, hsc, hc, harch,
    appendLoop_all_ok c.appendRes pid hall]

theorem entry_archive_err (c : Collab) (raw : List Char) (pd : PolishedData)
    (i : Int) (tz : Int → Int) (co : Int) (sf : List Char) (e : PyErr)
    (hpol : pd.polished = some sf)
    (hc : ∃ pid url, c.createRes = Except.ok (pid, url))
    (hall : ∀ j, c.appendRes j = none) (harch : c.archiveRes = some e) :
    (create_entry_from_memory c raw pd i tz co).1 = Except.error e := by
  obtain ⟨pid, url, hc⟩ := hc
  obtain ⟨rf, hrf⟩ := rawFirst_ok raw
  rcases hsc : structuredChunksOf sf with _ | ⟨f, rest⟩
  · exact absurd hsc (structuredChunksOf_ne_nil sf)
  · simp [create_entry_from_memory, hpol, hrf, hsc, hc, harch,
      appendLoop_all_ok c.appendRes pid hall]

theorem entry_head_create (c : Collab) (raw : List Char) (pd : PolishedData)
    (i : Int) (tz : Int → Int) (co : Int) (sf f : List Char)
    (rest : List (List Char)) (pid url : String) (rf : Option (List Char))
    (hpol : pd.polished = some sf) (hrf : rawFirstChunkOf raw = Except.ok rf)
    (hsc : structuredChunksOf sf = f :: rest)
    (hc : c.createRes = Except.ok (pid, url)) :
    (create_entry_from_memory c raw pd i tz co).2.head? =
      some (Op.create (titleOf pd) (journal_date i tz co) f rf) := by
  simp only [create_entry_from_memory, hpol, hrf, hsc, hc]
  rcases hA : appendLoop c.appendRes pid 0
      (batches (rest.map (fun ch => Block.paragraph ch)) CHILD_BATCH_SIZE)
      with ⟨res1, ops1, k1⟩
  rcases res1 with e1 | u1
  · simp [hA]
  · simp only [hA]
    rcases hA2 : appendLoop c.appendRes pid k1
        (batches (rawContinuation raw) CHILD_BATCH_SIZE) with ⟨res2, ops2, k2⟩
    rcases res2 with e2 | u2
    · simp [hA2]
    · rcases harch : c.archiveRes with _ | e3 <;> simp [hA2, harch]

theorem entry_ops_shape (c : Collab) (raw : List Char) (pd : PolishedData)
    (i : Int) (tz : Int → Int) (co : Int) :
    ∀ op ∈ (create_entry_from_memory c raw pd i tz co).2,
      (∃ f2 rf, op = Op.create (titleOf pd) (journal_date i tz co) f2 rf) ∨
      (∃ pid ch, op = Op.append pid ch) := by
  intro op hop
  rcases hpol : pd.polished with _ | sf
  · rw [entry_no_polished c raw pd i tz co hpol] at hop
    simp at hop
  obtain ⟨rf, hrf⟩ := rawFirst_ok raw
  rcases hsc : structuredChunksOf sf with _ | ⟨f2, rest⟩
  · exact absurd hsc (structuredChunksOf_ne_nil sf)
  rcases hc : c.createRes with e0 | ⟨pid, url⟩
  · rw [entry_create_err c raw pd i tz co sf e0 hpol hc] at hop
    simp at hop
  simp only [create_entry_from_memory, hpol, hrf, hsc, hc] at hop
  have hops1 := appendLoop_ops_append c.appendRes pid
    (batches (rest.map (fun ch => Block.paragraph ch)) CHILD_BATCH_SIZE) 0
  have hops2 := appendLoop_ops_append c.appendRes pid
    (batches (rawContinuation raw) CHILD_BATCH_SIZE)
    ((appendLoop c.appendRes pid 0
      (batches (rest.map (fun ch => Block.paragraph ch)) CHILD_BATCH_SIZE)).2.2)
  split at hop
  · dsimp only at hop
    rcases List.mem_cons.mp hop with h | h
    · exact Or.inl ⟨f2, rf, h⟩
    · obtain ⟨ch, hch⟩ := hops1 _ h
      exact Or.inr ⟨pid, ch, hch⟩
  · split at hop
    · dsimp only at hop
      rcases List.mem_cons.mp hop with h | h
      · exact Or.inl ⟨f2, rf, h⟩
      · rcases List.mem_append.mp h with h2 | h2
        · obtain ⟨ch, hch⟩ := hops1 _ h2
          exact Or.inr ⟨pid, ch, hch⟩
        · obtain ⟨ch, hch⟩ := hops2 _ h2
          exact Or.inr ⟨pid, ch, hch⟩
    · split at hop <;> dsimp only at hop <;>
        rcases List.mem_cons.mp hop with h | h
      · exact Or.inl ⟨f2, rf, h⟩
      · rcases List.mem_append.mp h with h2 | h2
        · obtain ⟨ch, hch⟩ := hops1 _ h2
          exact Or.inr ⟨pid, ch, hch⟩
        · obtain ⟨ch, hch⟩ := hops2 _ h2
          exact Or.inr ⟨pid, ch, hch⟩
      · exact Or.inl ⟨f2, rf, h⟩
      · rcases List.mem_append.mp h with h2 | h2
        · obtain ⟨ch, hch⟩ := hops1 _ h2
          exact Or.inr ⟨pid, ch, hch⟩
        · obtain ⟨ch, hch⟩ := hops2 _ h2
          exact Or.inr ⟨pid, ch, hch⟩

theorem chunkLoopInstrF_sep_kind (m : Nat) :
    ∀ (fuel : Nat) (t : List Char) (p : List Char × List Char × CutKind),
      p ∈ chunkLoopInstrF m fuel t → p.2.2 ≠ CutKind.boundary → p.2.1 = [] := by
  intro fuel
  induction fuel with
  | zero => intro t p hp; simp [chunkLoopInstrF] at hp
  | succ fuel ih =>
    intro t p hp hk
    rw [chunkLoopInstrF] at hp
    by_cases h0 : t = []
    · rw [if_pos h0] at hp
      simp at hp
    rw [if_neg h0] at hp
    by_cases h1 : t.length ≤ m + 1
    · rw [if_pos h1] at hp
      simp at hp
      subst hp
      rfl
    rw [if_neg h1] at hp
    by_cases h2 : pyIsSpace (t.getD (m + 1) 'a')
    · rw [if_pos h2] at hp
      rcases List.mem_cons.mp hp with h | h
      · subst h
        simp at hk
      · exact ih _ p h hk
    rw [if_neg h2] at hp
    split at hp <;>
      rcases List.mem_cons.mp hp with h | h <;>
      first
        | (subst h; rfl)
        | exact ih _ p h hk

theorem appendedBlocks_cons_create (ttl : String) (d : Int) (f : List Char)
    (r : Option (List Char)) (ops : List Op) :
    appendedBlocks (Op.create ttl d f r :: ops) = appendedBlocks ops := by
  simp [appendedBlocks]

theorem appendedBlocks_append_list (xs ys : List Op) :
    appendedBlocks (xs ++ ys) = appendedBlocks xs ++ appendedBlocks ys := by
  simp [appendedBlocks]

theorem appendedBlocks_map_append (pid : String) (bs : List (List Block)) :
    appendedBlocks (bs.map (fun b => Op.append pid b)) = bs.flatten := by
  induction bs with
  | nil => rfl
  | cons b bs ih =>
    simp only [appendedBlocks, List.map_cons, List.flatten_cons] at ih ⊢
    rw [ih]

theorem ediv_sub_day (x : Int) : (x - 1440).ediv 1440 = x.ediv 1440 - 1 := by
  have h := Int.add_mul_ediv_right x (-1) (show (1440:Int) ≠ 0 by norm_num)
  simpa using h

/-- Claim C1 as stated fails on the code. Chunking the five characters a,
b, newline, c, d with max_chars 2 cuts once, at the newline, which is a
soft boundary cut consuming the newline; re-joining the two chunks with a
single space re-inserted at the soft cut yields a different string, since
the consumed whitespace character was a newline and not a space. -/
theorem C1_counterexample :
    chunk_text "ab\ncd".toList 2 = Except.ok ["ab".toList, "cd".toList] ∧
    (chunkInstr 1 "ab\ncd".toList).map (fun p => p.1) = ["ab".toList, "cd".toList] ∧
    (chunkInstr 1 "ab\ncd".toList).map (fun p => p.2.2) = [CutKind.boundary, CutKind.final] ∧
    rejoinSingleSpace (chunkInstr 1 "ab\ncd".toList) ≠ "ab\ncd".toList :=
  ⟨by decide, by decide, by decide, by decide⟩

/-- Claim C1, amended: for every text and positive max_chars the chunks of
chunk_text concatenated in order, with the single whitespace character that
each boundary cut consumed re-inserted at that cut, reproduce the input
exactly. Every re-inserted separator is one whitespace character (not
always a space), and only boundary cuts carry one: backtrack soft cuts
keep their whitespace inside the chunk and hard cuts consume nothing. -/
theorem C1_roundtrip_amended (t : List Char) (maxChars : Int) (h : 0 < maxChars) :
    chunk_text t maxChars
      = Except.ok ((chunkInstr (maxChars.toNat - 1) t).map (fun p => p.1)) ∧
    ((chunkInstr (maxChars.toNat - 1) t).map (fun p => p.1 ++ p.2.1)).flatten = t ∧
    (∀ p ∈ chunkInstr (maxChars.toNat - 1) t,
      p.2.1 = [] ∨ ∃ ch, p.2.1 = [ch] ∧ pyIsSpace ch = true) ∧
    (∀ p ∈ chunkInstr (maxChars.toNat - 1) t,
      p.2.2 ≠ CutKind.boundary → p.2.1 = []) := by
  refine ⟨?_, ?_, ?_, ?_⟩
  · rw [chunk_text_pos t maxChars h]
    exact congrArg Except.ok (chunkLoopInstrF_fst _ _ _).symm
  · exact chunkLoopInstrF_join _ _ _ le_rfl
  · exact fun p hp => chunkLoopInstrF_sep _ _ _ p hp
  · exact fun p hp => chunkLoopInstrF_sep_kind _ _ _ p hp

/-- Witness for the amended C1 at a concrete input. -/
theorem C1_witness :
    (0 : Int) < 4 ∧
    ((chunkInstr 3 "ab cd".toList).map (fun p => p.1 ++ p.2.1)).flatten = "ab cd".toList :=
  ⟨by decide, (C1_roundtrip_amended "ab cd".toList 4 (by decide)).2.1⟩

/-- Claim C2: every chunk of chunk_text has length at most max_chars, a
hard-cut chunk is exactly max_chars long, and in particular the final
remainder chunk also obeys the bound. -/
theorem C2_chunk_bound (t : List Char) (maxChars : Int) (h : 0 < maxChars) :
    chunk_text t maxChars
      = Except.ok ((chunkInstr (maxChars.toNat - 1) t).map (fun p => p.1)) ∧
    (∀ p ∈ chunkInstr (maxChars.toNat - 1) t, (p.1.length : Int) ≤ maxChars) ∧
    (∀ p ∈ chunkInstr (maxChars.toNat - 1) t,
      p.2.2 = CutKind.hard → (p.1.length : Int) = maxChars) := by
  refine ⟨?_, ?_, ?_⟩
  · rw [chunk_text_pos t maxChars h]
    exact congrArg Except.ok (chunkLoopInstrF_fst _ _ _).symm
  · intro p hp
    have hb := chunkLoopInstrF_chunklen _ _ _ p hp
    omega
  · intro p hp hk
    have hb := chunkLoopInstrF_hardlen _ _ _ p hp hk
    omega

/-- Witness for C2 at a concrete input with a hard cut. -/
theorem C2_witness :
    (0 : Int) < 2 ∧ (∀ p ∈ chunkInstr 1 "aaaa".toList, (p.1.length : Int) ≤ 2) :=
  ⟨by decide, (C2_chunk_bound "aaaa".toList 2 (by decide)).2.1⟩

/-- Claim C3: journal_date equals the local calendar date minus one day
exactly when the local time of day is strictly before the cutoff, the
cutoff instant itself is not shifted back, and the three concrete examples
of the spec hold (cutoff 04:00 is 240 minutes; 02:30Z and 05:00Z under the
zero-offset zone; 03:00Z under a one-hour-ahead July zone). -/
theorem C3_journal_date :
    (∀ (i : Int) (tz : Int → Int) (c : Int),
      journal_date i tz c =
        if (i + tz i).emod 1440 < c then (i + tz i).ediv 1440 - 1
        else (i + tz i).ediv 1440) ∧
    (∀ (i : Int) (tz : Int → Int) (c : Int),
      (i + tz i).emod 1440 = c → journal_date i tz c = (i + tz i).ediv 1440) ∧
    journal_date (daysFromCivil 2025 1 15 * 1440 + 150) utcZone 240
      = daysFromCivil 2025 1 14 ∧
    journal_date (daysFromCivil 2025 1 15 * 1440 + 300) utcZone 240
      = daysFromCivil 2025 1 15 ∧
    journal_date (daysFromCivil 2025 7 21 * 1440 + 180) plusOneZone 240
      = daysFromCivil 2025 7 21 := by
  refine ⟨?_, ?_, by decide, by decide, by decide⟩
  · intro i tz c
    simp only [journal_date]
    by_cases hc2 : (i + tz i).emod 1440 < c
    · rw [if_pos hc2, if_pos hc2, ediv_sub_day]
    · rw [if_neg hc2, if_neg hc2]
  · intro i tz c h
    simp only [journal_date]
    rw [if_neg (by omega)]

/-- Witness for C3 exercising the implication at the cutoff instant of the
daylight-saving example. -/
theorem C3_witness :
    (daysFromCivil 2025 7 21 * 1440 + 180
      + plusOneZone (daysFromCivil 2025 7 21 * 1440 + 180)).emod 1440 = 240 ∧
    journal_date (daysFromCivil 2025 7 21 * 1440 + 180) plusOneZone 240
      = (daysFromCivil 2025 7 21 * 1440 + 180
         + plusOneZone (daysFromCivil 2025 7 21 * 1440 + 180)).ediv 1440 :=
  ⟨by decide, C3_journal_date.2.1 _ plusOneZone 240 (by decide)⟩

/-- Claim C9: no chunk produced by chunk_text is the empty string. -/
theorem C9_chunks_nonempty (t : List Char) (maxChars : Int) (h : 0 < maxChars) :
    ∀ chunks, chunk_text t maxChars = Except.ok chunks → ∀ ch ∈ chunks, ch ≠ [] := by
  intro chunks hcx ch hch
  rw [chunk_text_pos t maxChars h] at hcx
  injection hcx with hcx
  subst hcx
  exact chunkLoopF_ne_nil _ _ _ ch hch

/-- Witness for C9 at a concrete input. -/
theorem C9_witness :
    (0 : Int) < 3 ∧ ∀ ch ∈ ["ab ".toList, "cd".toList], ch ≠ [] :=
  ⟨by decide,
   fun ch hch => C9_chunks_nonempty "ab cd".toList 3 (by decide) _ (by decide) ch hch⟩

theorem structuredChunksOf_eq (sf : List Char) (h : sf ≠ []) :
    structuredChunksOf sf = chunkMax sf := by
  unfold structuredChunksOf
  rw [if_neg (chunkMax_ne_nil sf h)]

theorem chunkLoop_one_lt (m : Nat) (t : List Char) (h : m + 2 < t.length) :
    1 < (chunkLoop m t).length := by
  have hne : t ≠ [] := by
    intro hn
    subst hn
    simp at h
  rcases hn : t.length with _ | n
  · omega
  have hn1 : 1 ≤ n := by omega
  have hrestlen : ∀ k, k ≤ m + 2 → 0 < (chunkLoopF m n (t.drop k)).length := by
    intro k hk
    rcases hn2 : n with _ | n2
    · omega
    apply List.length_pos.mpr
    apply chunkLoopF_cons
    intro hd
    have hd2 := congrArg List.length hd
    simp only [List.length_drop, List.length_nil] at hd2
    omega
  rw [chunkLoop, hn, chunkLoopF, if_neg hne, if_neg (by omega)]
  by_cases h2 : pyIsSpace (t.getD (m + 1) 'a')
  · rw [if_pos h2]
    have hr := hrestlen (m + 2) le_rfl
    simp only [List.length_cons]
    omega
  rw [if_neg h2]
  split
  · have hr := hrestlen (m + 1) (by omega)
    simp only [List.length_cons]
    omega
  · have hr := hrestlen (m + 1) (by omega)
    simp only [List.length_cons]
    omega
  · rename_i lb heq
    have hlb := findLastBreak_lt heq
    have hr := hrestlen (lb + 2) (by omega)
    simp only [List.length_cons]
    omega

theorem longText_ne_nil : longText ≠ [] := by
  intro hn
  have h := congrArg List.length hn
  simp only [longText, List.length_append, List.length_replicate, List.length_cons,
    List.length_nil] at h
  omega

theorem longText_length : longText.length = 3598 := by
  simp only [longText, List.length_append, List.length_replicate, List.length_cons]

theorem longText_chunks_one_lt : 1 < (structuredChunksOf longText).length := by
  rw [structuredChunksOf_eq longText longText_ne_nil]
  exact chunkLoop_one_lt 1799 longText (by rw [longText_length]; omega)

/-- Claim C4 as stated fails on the code: a transcription failure whose
error text carries none of the marker substrings is reported with the
generic fallback message, not with the fixed transcription-category
message, because categories are assigned by substring matching on the
error text rather than by the failing stage. -/
theorem C4_counterexample :
    (run_pipeline cTransFail 0 utcZone 240).outcome
      = Outcome.failure (msgGeneric "RuntimeError") ∧
    msgGeneric "RuntimeError" ≠ msgTranscription :=
  ⟨by decide, by decide⟩

/-- Claim C4, amended: a failure in exactly one of the five stages yields a
Failed outcome carrying the fixed message of the matching category whenever
the error text carries the marker substrings that get_error_message checks
for that category (in its matching order): openai or whisper for
transcription, notion for persistence (create and append), json or parse
for polishing, file or path for the local archive. -/
theorem C4_stage_failure_amended :
    (∀ (c : Collab) (i : Int) (tz : Int → Int) (co : Int) (e : PyErr),
      c.transcribeRes = Except.error e → mentionsTranscription e = true →
      (run_pipeline c i tz co).outcome = Outcome.failure msgTranscription) ∧
    (∀ (c : Collab) (i : Int) (tz : Int → Int) (co : Int) (raw : List Char) (e : PyErr),
      c.transcribeRes = Except.ok raw → c.polishRes = Except.error e →
      mentionsTranscription e = false → mentionsStore e = false →
      mentionsParse e = true →
      (run_pipeline c i tz co).outcome = Outcome.failure msgParse) ∧
    (∀ (c : Collab) (i : Int) (tz : Int → Int) (co : Int) (raw : List Char)
        (pd : PolishedData) (sf : List Char) (e : PyErr),
      c.transcribeRes = Except.ok raw → c.polishRes = Except.ok pd →
      pd.polished = some sf → c.createRes = Except.error e →
      mentionsTranscription e = false → mentionsStore e = true →
      (run_pipeline c i tz co).outcome = Outcome.failure msgNotion) ∧
    (∀ (c : Collab) (i : Int) (tz : Int → Int) (co : Int) (raw : List Char)
        (pd : PolishedData) (sf : List Char) (pid url : String) (e : PyErr),
      c.transcribeRes = Except.ok raw → c.polishRes = Except.ok pd →
      pd.polished = some sf → c.createRes = Except.ok (pid, url) →
      1 < (structuredChunksOf sf).length → c.appendRes 0 = some e →
      mentionsTranscription e = false → mentionsStore e = true →
      (run_pipeline c i tz co).outcome = Outcome.failure msgNotion) ∧
    (∀ (c : Collab) (i : Int) (tz : Int → Int) (co : Int) (raw : List Char)
        (pd : PolishedData) (sf : List Char) (pid url : String) (e : PyErr),
      c.transcribeRes = Except.ok raw → c.polishRes = Except.ok pd →
      pd.polished = some sf → c.createRes = Except.ok (pid, url) →
      (∀ j, c.appendRes j = none) → c.archiveRes = some e →
      mentionsTranscription e = false → mentionsStore e = false →
      mentionsParse e = false → mentionsFileSystem e = true →
      (run_pipeline c i tz co).outcome = Outcome.failure msgFile) := by
  refine ⟨?_, ?_, ?_, ?_, ?_⟩
  · intro c i tz co e hT hM
    rw [run_pipeline_outcome_err c i tz co e (pipeline_trans_err c i tz co e hT).1,
      gem_transcription e hM]
  · intro c i tz co raw e hT hP hM1 hM2 hM3
    rw [run_pipeline_outcome_err c i tz co e (pipeline_polish_err c i tz co raw e hT hP).1,
      gem_parse e hM1 hM2 hM3]
  · intro c i tz co raw pd sf e hT hP hpol hc hM1 hM2
    have he : (create_entry_from_memory c raw pd i tz co).1 = Except.error e := by
      rw [entry_create_err c raw pd i tz co sf e hpol hc]
    rw [run_pipeline_outcome_err c i tz co e
        (pipeline_entry_err c i tz co raw pd e hT hP he).1,
      gem_notion e hM1 hM2]
  · intro c i tz co raw pd sf pid url e hT hP hpol hc hlen ha hM1 hM2
    rcases hsc : structuredChunksOf sf with _ | ⟨f, rest⟩
    · exact absurd hsc (structuredChunksOf_ne_nil sf)
    have hrest : rest ≠ [] := by
      intro hn
      rw [hsc, hn] at hlen
      simp at hlen
    obtain ⟨rf, hrf, heq⟩ :=
      entry_append_err c raw pd i tz co sf f rest e pid url hpol hsc hrest hc ha
    have he : (create_entry_from_memory c raw pd i tz co).1 = Except.error e := by
      rw [heq]
    rw [run_pipeline_outcome_err c i tz co e
        (pipeline_entry_err c i tz co raw pd e hT hP he).1,
      gem_notion e hM1 hM2]
  · intro c i tz co raw pd sf pid url e hT hP hpol hc hall harch hM1 hM2 hM3 hM4
    have he : (create_entry_from_memory c raw pd i tz co).1 = Except.error e :=
      entry_archive_err c raw pd i tz co sf e hpol ⟨pid, url, hc⟩ hall harch
    rw [run_pipeline_outcome_err c i tz co e
        (pipeline_entry_err c i tz co raw pd e hT hP he).1,
      gem_file e hM1 hM2 hM3 hM4]

/-- Witness for the amended C4: one concrete run per stage, each failing
with an error text carrying the marker of its stage. -/
theorem C4_witness :
    (run_pipeline cTransFailMarked 0 utcZone 240).outcome
      = Outcome.failure msgTranscription ∧
    (run_pipeline cPolishFailMarked 0 utcZone 240).outcome
      = Outcome.failure msgParse ∧
    (run_pipeline cCreateFailMarked 0 utcZone 240).outcome
      = Outcome.failure msgNotion ∧
    (run_pipeline cAppendFailMarked 0 utcZone 240).outcome
      = Outcome.failure msgNotion ∧
    (run_pipeline cArchiveFailMarked 0 utcZone 240).outcome
      = Outcome.failure msgFile :=
  ⟨C4_stage_failure_amended.1 cTransFailMarked 0 utcZone 240
      ⟨"APIError", "OpenAI rate limit"⟩ rfl (by decide),
   C4_stage_failure_amended.2.1 cPolishFailMarked 0 utcZone 240 "hello there".toList
      ⟨"JSONDecodeError", "invalid json response"⟩ rfl rfl (by decide) (by decide) (by decide),
   C4_stage_failure_amended.2.2.1 cCreateFailMarked 0 utcZone 240 "hello there".toList
      ⟨some "hello there".toList, some "Topic"⟩ "hello there".toList
      ⟨"APIResponseError", "Notion request failed"⟩ rfl rfl rfl rfl (by decide) (by decide),
   C4_stage_failure_amended.2.2.2.1 cAppendFailMarked 0 utcZone 240 "hello there".toList
      ⟨some longText, some "Topic"⟩ longText "pid" "url"
      ⟨"APIResponseError", "Notion request failed"⟩ rfl rfl rfl rfl
      longText_chunks_one_lt rfl (by decide) (by decide),
   C4_stage_failure_amended.2.2.2.2 cArchiveFailMarked 0 utcZone 240 "hello there".toList
      ⟨some "hello there".toList, some "Topic"⟩ "hello there".toList "pid" "url"
      ⟨"OSError", "cannot write file"⟩ rfl rfl rfl rfl (fun j => rfl) rfl
      (by decide) (by decide) (by decide) (by decide)⟩

/-- Claim C5 as stated fails on the code: an append failure after a
successful create is only reported with the persistence-category message
when its error text names the store; with a neutral error text the run
fails with the generic fallback message instead of the persistence one. -/
theorem C5_counterexample :
    (run_pipeline cAppendTimeout 0 utcZone 240).outcome
      = Outcome.failure (msgGeneric "RuntimeError") ∧
    msgGeneric "RuntimeError" ≠ msgNotion := by
  constructor
  · rcases hsc : structuredChunksOf longText with _ | ⟨f, rest⟩
    · exact absurd hsc (structuredChunksOf_ne_nil longText)
    have hrest : rest ≠ [] := by
      intro hn
      have hl := longText_chunks_one_lt
      rw [hsc, hn] at hl
      simp at hl
    obtain ⟨rf, hrf, heq⟩ := entry_append_err cAppendTimeout "hello there".toList
      ⟨some longText, some "Topic"⟩ 0 utcZone 240 longText f rest
      ⟨"RuntimeError", "timeout"⟩ "pid" "url" rfl hsc hrest rfl rfl
    have he : (create_entry_from_memory cAppendTimeout "hello there".toList
        ⟨some longText, some "Topic"⟩ 0 utcZone 240).1
        = Except.error ⟨"RuntimeError", "timeout"⟩ := by rw [heq]
    rw [run_pipeline_outcome_err _ _ _ _ _
        (pipeline_entry_err cAppendTimeout 0 utcZone 240 _ _ _ rfl rfl he).1]
    decide
  · decide

/-- Claim C5, amended: when the create succeeds and the first append fails,
the run fails with the message get_error_message assigns to the append
error (the fixed persistence message exactly when the error text names the
store and no earlier marker), the successful create remains in the trace,
and no delete of the created record is ever issued. -/
theorem C5_partial_persistence_amended (c : Collab) (i : Int) (tz : Int → Int)
    (co : Int) (raw : List Char) (pd : PolishedData) (sf : List Char)
    (pid url : String) (e : PyErr)
    (ht : c.transcribeRes = Except.ok raw) (hpo : c.polishRes = Except.ok pd)
    (hpol : pd.polished = some sf) (hc : c.createRes = Except.ok (pid, url))
    (hlen : 1 < (structuredChunksOf sf).length) (ha : c.appendRes 0 = some e) :
    (run_pipeline c i tz co).outcome = Outcome.failure (get_error_message e) ∧
    (∃ op ∈ (run_pipeline c i tz co).ops, Op.isCreate op = true) ∧
    (∀ op ∈ (run_pipeline c i tz co).ops, Op.isDelete op = false) ∧
    (mentionsTranscription e = false → mentionsStore e = true →
      get_error_message e = msgNotion) := by
  rcases hsc : structuredChunksOf sf with _ | ⟨f, rest⟩
  · exact absurd hsc (structuredChunksOf_ne_nil sf)
  have hrest : rest ≠ [] := by
    intro hn
    rw [hsc, hn] at hlen
    simp at hlen
  obtain ⟨rf, hrf, heq⟩ :=
    entry_append_err c raw pd i tz co sf f rest e pid url hpol hsc hrest hc ha
  have he : (create_entry_from_memory c raw pd i tz co).1 = Except.error e := by
    rw [heq]
  have hp := pipeline_entry_err c i tz co raw pd e ht hpo he
  have hops : (run_pipeline c i tz co).ops
      = [Op.create (titleOf pd) (journal_date i tz co) f rf] := by
    rw [run_pipeline_ops_eq, hp.2, heq]
  refine ⟨run_pipeline_outcome_err c i tz co e hp.1, ?_, ?_, ?_⟩
  · exact ⟨Op.create (titleOf pd) (journal_date i tz co) f rf, by rw [hops]; simp, rfl⟩
  · intro op hop
    rw [hops] at hop
    simp at hop
    subst hop
    rfl
  · exact fun h1 h2 => gem_notion e h1 h2

/-- Witness for the amended C5 at a concrete run. -/
theorem C5_witness :
    (run_pipeline cAppendFailMarked 0 utcZone 240).outcome
      = Outcome.failure msgNotion ∧
    (∃ op ∈ (run_pipeline cAppendFailMarked 0 utcZone 240).ops,
      Op.isCreate op = true) := by
  have h := C5_partial_persistence_amended cAppendFailMarked 0 utcZone 240
    "hello there".toList ⟨some longText, some "Topic"⟩ longText "pid" "url"
    ⟨"APIResponseError", "Notion request failed"⟩ rfl rfl rfl rfl
    longText_chunks_one_lt rfl
  exact ⟨by rw [h.1, h.2.2.2 (by decide) (by decide)], h.2.1⟩

/-- Claim C6: the audio resource is removed exactly once on the exit path
of every run, whatever the outcome, and a failure of the removal itself
neither changes the outcome nor causes another removal attempt. -/
theorem C6_audio_cleanup (c : Collab) (i : Int) (tz : Int → Int) (co : Int)
    (h : c.audioExists = true) :
    (run_pipeline c i tz co).removeCalls = 1 ∧
    (∀ b, (run_pipeline { c with removeOk := b } i tz co).outcome
            = (run_pipeline c i tz co).outcome) ∧
    (run_pipeline { c with removeOk := false } i tz co).removeCalls = 1 := by
  refine ⟨?_, ?_, ?_⟩
  · rw [run_pipeline_removeCalls, h]
    rfl
  · intro b
    have hb : (pipeline_blocking { c with removeOk := b } i tz co).1
        = (pipeline_blocking c i tz co).1 := by
      cases c
      rfl
    rcases hE : (pipeline_blocking c i tz co).1 with e | url
    · rw [run_pipeline_outcome_err _ _ _ _ _ (hb.trans hE),
        run_pipeline_outcome_err _ _ _ _ _ hE]
    · rw [run_pipeline_outcome_ok _ _ _ _ _ (hb.trans hE),
        run_pipeline_outcome_ok _ _ _ _ _ hE]
  · rw [run_pipeline_removeCalls]
    have h2 : ({ c with removeOk := false } : Collab).audioExists = c.audioExists := rfl
    rw [h2, h]
    rfl

/-- Witness for C6 at a concrete run. -/
theorem C6_witness : (run_pipeline cNoSummary 0 utcZone 240).removeCalls = 1 :=
  (C6_audio_cleanup cNoSummary 0 utcZone 240 rfl).1

/-- Claim C7 as stated fails on the code: a polishing response that lacks
the title is not a polishing failure at all; the run succeeds and the
record is created with the fallback title Untitled. -/
theorem C7_counterexample :
    (run_pipeline cNoSummary 0 utcZone 240).outcome = Outcome.success "url" ∧
    (run_pipeline cNoSummary 0 utcZone 240).ops.head? =
      some (Op.create "Untitled" (-1) "hello there".toList
        (some "hello there".toList)) :=
  ⟨by decide, by decide⟩

/-- Claim C7, amended: a polishing response that lacks the polished text
makes the run fail before any store operation is attempted, though the
failure is reported with the generic fallback message (the KeyError text
matches no category marker) rather than a polishing-category message; a
response that lacks the title does not fail at all, the title falls back
to Untitled on every record created. -/
theorem C7_polish_shape_amended :
    (∀ (c : Collab) (i : Int) (tz : Int → Int) (co : Int) (raw : List Char)
        (pd : PolishedData),
      c.transcribeRes = Except.ok raw → c.polishRes = Except.ok pd →
      pd.polished = none →
      (run_pipeline c i tz co).outcome = Outcome.failure (msgGeneric "KeyError") ∧
      (run_pipeline c i tz co).ops = []) ∧
    (∀ (c : Collab) (i : Int) (tz : Int → Int) (co : Int) (raw : List Char)
        (pd : PolishedData),
      c.transcribeRes = Except.ok raw → c.polishRes = Except.ok pd →
      pd.summary = none →
      ∀ op ∈ (run_pipeline c i tz co).ops,
        ∀ ttl d f r, op = Op.create ttl d f r → ttl = "Untitled") := by
  constructor
  · intro c i tz co raw pd ht hpo hpol
    have heq := entry_no_polished c raw pd i tz co hpol
    have he : (create_entry_from_memory c raw pd i tz co).1
        = Except.error keyErrorPolished := by rw [heq]
    have hp := pipeline_entry_err c i tz co raw pd keyErrorPolished ht hpo he
    constructor
    · rw [run_pipeline_outcome_err c i tz co keyErrorPolished hp.1]
      decide
    · rw [run_pipeline_ops_eq, hp.2, heq]
  · intro c i tz co raw pd ht hpo hsum op hop ttl d f r hop2
    have hops : (run_pipeline c i tz co).ops
        = (create_entry_from_memory c raw pd i tz co).2 := by
      rcases hE : (create_entry_from_memory c raw pd i tz co).1 with e | ru
      · exact (run_pipeline_ops_eq c i tz co).trans
          (pipeline_entry_err c i tz co raw pd e ht hpo hE).2
      · exact (run_pipeline_ops_eq c i tz co).trans
          (pipeline_entry_ok c i tz co raw pd ru.1 ru.2 ht hpo (by rw [hE])).2
    rw [hops] at hop
    rcases entry_ops_shape c raw pd i tz co op hop with ⟨f2, rf, hsh⟩ | ⟨pid, ch, hsh⟩
    · rw [hop2] at hsh
      simp only [Op.create.injEq] at hsh
      rw [hsh.1]
      unfold titleOf
      rw [hsum]
    · rw [hop2] at hsh
      simp at hsh

/-- Witness for the amended C7: a missing polished text fails before any
store call; a missing title yields Untitled. -/
theorem C7_witness :
    (run_pipeline cNoPolishedKey 0 utcZone 240).outcome
      = Outcome.failure (msgGeneric "KeyError") ∧
    (∀ op ∈ (run_pipeline cNoSummary 0 utcZone 240).ops,
      ∀ ttl d f r, op = Op.create ttl d f r → ttl = "Untitled") :=
  ⟨(C7_polish_shape_amended.1 cNoPolishedKey 0 utcZone 240 "hello there".toList
      ⟨none, some "Topic"⟩ rfl rfl rfl).1,
   C7_polish_shape_amended.2 cNoSummary 0 utcZone 240 "hello there".toList
      ⟨some "hello there".toList, none⟩ rfl rfl rfl⟩

/-- Claim C8: in a run whose store calls all succeed, every append request
carries at most CHILD_BATCH_SIZE blocks, CHILD_BATCH_SIZE is 50 and under
the documented per-request limit of 100, and the blocks across the append
requests are, in order, exactly the remaining structured chunks followed by
the raw continuation section, so batching preserves the chunk order. -/
theorem C8_append_batches (c : Collab) (i : Int) (tz : Int → Int) (co : Int)
    (raw : List Char) (pd : PolishedData) (sf : List Char) (pid url : String)
    (ht : c.transcribeRes = Except.ok raw) (hpo : c.polishRes = Except.ok pd)
    (hpol : pd.polished = some sf) (hc : c.createRes = Except.ok (pid, url))
    (hall : ∀ j, c.appendRes j = none) (harch : c.archiveRes = none) :
    CHILD_BATCH_SIZE = 50 ∧ CHILD_BATCH_SIZE ≤ 100 ∧
    (∀ op ∈ (run_pipeline c i tz co).ops, ∀ pid2 ch, op = Op.append pid2 ch →
      ch.length ≤ CHILD_BATCH_SIZE) ∧
    appendedBlocks (run_pipeline c i tz co).ops
      = (structuredChunksOf sf).tail.map (fun ch => Block.paragraph ch)
        ++ rawContinuation raw := by
  rcases hsc : structuredChunksOf sf with _ | ⟨f, rest⟩
  · exact absurd hsc (structuredChunksOf_ne_nil sf)
  obtain ⟨rf, hrf⟩ := rawFirst_ok raw
  have heq := entry_ok_success c raw pd i tz co sf f rest pid url rf
    hpol hrf hsc hc hall harch
  have he : (create_entry_from_memory c raw pd i tz co).1
      = Except.ok (url, "journal_entries") := by rw [heq]
  have hp := pipeline_entry_ok c i tz co raw pd url "journal_entries" ht hpo he
  have hops : (run_pipeline c i tz co).ops
      = Op.create (titleOf pd) (journal_date i tz co) f rf
          :: ((batches (rest.map (fun ch => Block.paragraph ch)) CHILD_BATCH_SIZE).map
                (fun b => Op.append pid b)
            ++ (batches (rawContinuation raw) CHILD_BATCH_SIZE).map
                (fun b => Op.append pid b)) := by
    rw [run_pipeline_ops_eq, hp.2, heq]
  refine ⟨rfl, by norm_num [CHILD_BATCH_SIZE], ?_, ?_⟩
  · intro op hop pid2 ch hop2
    rw [hops] at hop
    rcases List.mem_cons.mp hop with hm | hm
    · rw [hop2] at hm
      simp at hm
    · rcases List.mem_append.mp hm with hm2 | hm2
      · obtain ⟨b, hb, hb2⟩ := List.mem_map.mp hm2
        rw [hop2] at hb2
        simp only [Op.append.injEq] at hb2
        rw [← hb2.2]
        exact batches_size _ CHILD_BATCH_SIZE b (by norm_num [CHILD_BATCH_SIZE]) hb
      · obtain ⟨b, hb, hb2⟩ := List.mem_map.mp hm2
        rw [hop2] at hb2
        simp only [Op.append.injEq] at hb2
        rw [← hb2.2]
        exact batches_size _ CHILD_BATCH_SIZE b (by norm_num [CHILD_BATCH_SIZE]) hb
  · rw [hops, appendedBlocks_cons_create, appendedBlocks_append_list,
      appendedBlocks_map_append, appendedBlocks_map_append,
      batches_flatten, batches_flatten, List.tail_cons]

/-- Witness for C8 at a concrete run in which both the polished text and
the raw transcript span two chunks. -/
theorem C8_witness :
    appendedBlocks (run_pipeline cAllOkLong 0 utcZone 240).ops
      = (structuredChunksOf longText).tail.map (fun ch => Block.paragraph ch)
        ++ rawContinuation longText :=
  (C8_append_batches cAllOkLong 0 utcZone 240 longText
    ⟨some longText, some "Topic"⟩ longText "pid" "url" rfl rfl rfl rfl
    (fun _ => rfl) rfl).2.2.2

/-- Claim C10: an empty polished text chunks to the empty list, which the
falsy-list coercion turns into the singleton list holding the empty string,
so the coerced chunk list is never empty, the create call is still issued
and its structured field is the empty string: the access to the first chunk
cannot fail. -/
theorem C10_empty_polished (c : Collab) (i : Int) (tz : Int → Int) (co : Int)
    (raw : List Char) (pd : PolishedData) (pid url : String)
    (ht : c.transcribeRes = Except.ok raw) (hpo : c.polishRes = Except.ok pd)
    (hpol : pd.polished = some []) (hc : c.createRes = Except.ok (pid, url)) :
    chunkMax [] = [] ∧
    structuredChunksOf [] = [[]] ∧
    (∀ sf, structuredChunksOf sf ≠ []) ∧
    (∃ rf, (run_pipeline c i tz co).ops.head? =
      some (Op.create (titleOf pd) (journal_date i tz co) [] rf)) := by
  refine ⟨rfl, rfl, structuredChunksOf_ne_nil, ?_⟩
  obtain ⟨rf, hrf⟩ := rawFirst_ok raw
  refine ⟨rf, ?_⟩
  have hsc : structuredChunksOf [] = [] :: [] := rfl
  have hhead := entry_head_create c raw pd i tz co [] [] [] pid url rf hpol hrf hsc hc
  have hops : (run_pipeline c i tz co).ops
      = (create_entry_from_memory c raw pd i tz co).2 := by
    rcases hE : (create_entry_from_memory c raw pd i tz co).1 with e | ru
    · exact (run_pipeline_ops_eq c i tz co).trans
        (pipeline_entry_err c i tz co raw pd e ht hpo hE).2
    · exact (run_pipeline_ops_eq c i tz co).trans
        (pipeline_entry_ok c i tz co raw pd ru.1 ru.2 ht hpo (by rw [hE])).2
  rw [hops, hhead]

/-- Witness for C10 at a concrete run with an empty polished text. -/
theorem C10_witness :
    ∃ rf, (run_pipeline cEmptyPolished 0 utcZone 240).ops.head? =
      some (Op.create "Topic" (journal_date 0 utcZone 240) [] rf) :=
  (C10_empty_polished cEmptyPolished 0 utcZone 240 "hello there".toList
    ⟨some [], some "Topic"⟩ "pid" "url" rfl rfl rfl rfl).2.2.2
